/-
Verification development for the Secure-Signature-Traversal repository.

Shallow embedding of:
  - src/crypto-utils.ts   (serializePayload, serializeSignature,
    calculateExpectedHash, verifySignature)
  - src/traversal.ts      (traverse, verifySignatureAtIndex,
    createSignerRegistry)

External cryptographic primitives (ethers.keccak256, ethers.hashMessage,
ethers.recoverAddress) are out-of-scope capability interfaces per the spec;
they are modelled as parameters bundled in the `Crypto` structure: an
abstract hash function `String → String` and an identity-recovery oracle
`String → String → Option String` (`none` models a thrown exception).
-/

import Mathlib

set_option maxRecDepth 16384

namespace SST

/-- A JSON-like value: payload fields are strings or nested objects
(the TypeScript `Payload` has index signature `[key: string]: any`;
string and object values are the shapes exercised by the repository). -/
inductive Value where
  | str : String → Value
  | obj : List (String × Value) → Value

/-- JSON escaping of a single character as performed by `JSON.stringify`
(quote, backslash and the common control characters). -/
def escapeChar (c : Char) : List Char :=
  if c = '"' then ['\\', '"']
  else if c = '\\' then ['\\', '\\']
  else if c = '\n' then ['\\', 'n']
  else if c = '\t' then ['\\', 't']
  else if c = '\r' then ['\\', 'r']
  else [c]

/-- JSON escaping of a character sequence. -/
def escapeChars : List Char → List Char
  | [] => []
  | c :: cs => escapeChar c ++ escapeChars cs

/-- JSON string literal: opening quote, escaped body, closing quote. -/
def quote (s : String) : String :=
  String.mk ('"' :: (escapeChars s.data ++ ['"']))

/-- First-match association-list lookup (JS object property access). -/
def lookupKey (k : String) : List (String × Value) → Option Value
  | [] => none
  | (k2, v) :: rest => if k = k2 then some v else lookupKey k rest

/-- First-match lookup on pre-serialized fields. -/
def lookupSer (k : String) : List (String × String) → Option String
  | [] => none
  | (k2, v) :: rest => if k = k2 then some v else lookupSer k rest

/-- Lexicographic comparison of character sequences by code point, the
default comparator of JavaScript `Array.prototype.sort` on strings. -/
def charsLe : List Char → List Char → Bool
  | [], _ => true
  | _ :: _, [] => false
  | a :: as, b :: bs =>
      if a.toNat < b.toNat then true
      else if b.toNat < a.toNat then false
      else charsLe as bs

/-- Lexicographic comparison of strings. -/
def strLe (a b : String) : Bool := charsLe a.data b.data

/-- Insertion into a sorted list of keys. -/
def insertKey (k : String) : List String → List String
  | [] => [k]
  | x :: xs => if strLe k x then k :: x :: xs else x :: insertKey k xs

/-- `Object.keys(payload).sort()`: lexicographic sort of the key list. -/
def sortKeys : List String → List String
  | [] => []
  | x :: xs => insertKey x (sortKeys xs)

/-- Comma-joining of serialized object entries. -/
def joinComma : List String → String
  | [] => ""
  | [x] => x
  | x :: y :: ys => x ++ "," ++ joinComma (y :: ys)

mutual
/-- `JSON.stringify(·, K)` with replacer array `K`: at every nesting level
only the properties named in `K` are emitted, in the order of `K`. -/
def serializeValue (K : List String) : Value → String
  | .str s => quote s
  | .obj fields =>
      "\x7b" ++ joinComma (K.filterMap (fun k =>
        (lookupSer k (serializeFields K fields)).map
          (fun sv => quote k ++ ":" ++ sv))) ++ "\x7d"

/-- Serialization of every field value of an object (pure helper; the
replacer filtering in `serializeValue` selects which are emitted). -/
def serializeFields (K : List String) : List (String × Value) → List (String × String)
  | [] => []
  | (k, v) :: rest => (k, serializeValue K v) :: serializeFields K rest
end

/-- The document payload: a JS object, i.e. an ordered association list of
fields (field name → value). -/
def Payload := List (String × Value)

/-- `serializePayload` from src/crypto-utils.ts:
`JSON.stringify(payload, Object.keys(payload).sort())`. -/
def serializePayload (payload : Payload) : String :=
  serializeValue (sortKeys ((payload : List (String × Value)).map Prod.fst)) (.obj payload)

/-- A signature record (src/types.ts interface `Signature`). -/
structure Signature where
  signerId : String
  signature : String
  signedAt : String
  signedHash : String
deriving DecidableEq

instance : Inhabited Signature := ⟨⟨"", "", "", ""⟩⟩

/-- `serializeSignature` from src/crypto-utils.ts:
`JSON.stringify(signature, keys.sort())`; the sorted key order of the four
fields is `signature`, `signedAt`, `signedHash`, `signerId`. -/
def serializeSignature (s : Signature) : String :=
  "\x7b" ++ quote "signature" ++ ":" ++ quote s.signature
      ++ "," ++ quote "signedAt" ++ ":" ++ quote s.signedAt
      ++ "," ++ quote "signedHash" ++ ":" ++ quote s.signedHash
      ++ "," ++ quote "signerId" ++ ":" ++ quote s.signerId ++ "\x7d"

/-- External cryptographic capabilities (ethers primitives are out of
scope; the hash models `createHash = keccak256 ∘ toUtf8Bytes`, and
`recoverIdentity` models `recoverAddress ∘ hashMessage`, with `none`
standing for a thrown exception). -/
structure Crypto where
  hash : String → String
  recoverIdentity : String → String → Option String

/-- `calculateExpectedHash` from src/crypto-utils.ts: hash of the payload
serialization followed by each previous signature's serialization. -/
def calculateExpectedHash (h : String → String) (payload : Payload)
    (previousSignatures : List Signature) : String :=
  h (previousSignatures.foldl (fun acc sig => acc ++ serializeSignature sig)
      (serializePayload payload))

/-- The concatenation of the serialized previous signatures, as appended
after the payload serialization by `calculateExpectedHash`. -/
def concatSer : List Signature → String
  | [] => ""
  | s :: rest => serializeSignature s ++ concatSer rest

/-- `toLowerCase`: character-wise ASCII lower-casing (structural
reformulation of `String.toLower`). -/
def toLowerStr (s : String) : String :=
  String.mk (s.data.map Char.toLower)

/-- `verifySignature` from src/crypto-utils.ts: recover an identity from
the message and signature and compare case-insensitively with the expected
address; a recovery failure (exception) yields `false`. -/
def verifySignature (recoverIdentity : String → String → Option String)
    (message signatureBytes expectedAddress : String) : Bool :=
  match recoverIdentity message signatureBytes with
  | none => false
  | some recovered => toLowerStr recovered == toLowerStr expectedAddress

/-- Signer registry: signer id → public address; `none` models an absent
key (the JS lookup `signerRegistry[signerId]`). -/
def SignerRegistry := String → Option String

/-- `createSignerRegistry` from src/traversal.ts: build a registry from
`[signerId, address]` pairs, later pairs overriding earlier ones. -/
def createSignerRegistry (signerMappings : List (String × String)) : SignerRegistry :=
  fun id => (signerMappings.reverse.find? (fun p => p.1 == id)).map Prod.snd

/-- Per-signature outcome (src/types.ts `SignatureVerificationResult`). -/
structure SignatureVerificationResult where
  signerId : String
  isValid : Bool
  error : Option String
  hashChainValid : Bool
  signatureValid : Bool
deriving DecidableEq

instance : Inhabited SignatureVerificationResult := ⟨⟨"", true, none, false, false⟩⟩

/-- Overall outcome (src/types.ts `VerificationResult`). -/
structure VerificationResult where
  isValid : Bool
  error : Option String
  signatureResults : List SignatureVerificationResult
deriving DecidableEq

/-- `verifySignatureAtIndex` from src/traversal.ts: registry lookup (a
falsy address — absent key or empty string — is "not found"), then the
hash-chain check, then the cryptographic check, each short-circuiting. -/
def verifySignatureAtIndex (c : Crypto) (payload : Payload) (signature : Signature)
    (previousSignatures : List Signature) (registry : SignerRegistry) :
    SignatureVerificationResult :=
  match registry signature.signerId with
  | none =>
      { signerId := signature.signerId, isValid := false,
        error := some ("Signer " ++ signature.signerId ++ " not found in registry"),
        hashChainValid := false, signatureValid := false }
  | some signerAddress =>
      if signerAddress = "" then
        { signerId := signature.signerId, isValid := false,
          error := some ("Signer " ++ signature.signerId ++ " not found in registry"),
          hashChainValid := false, signatureValid := false }
      else
        if calculateExpectedHash c.hash payload previousSignatures
            ≠ signature.signedHash then
          { signerId := signature.signerId, isValid := false,
            error := some ("Hash chain broken: expected "
                            ++ calculateExpectedHash c.hash payload previousSignatures
                            ++ ", got " ++ signature.signedHash),
            hashChainValid := false, signatureValid := false }
        else
          if ¬ verifySignature c.recoverIdentity signature.signedHash
                signature.signature signerAddress then
            { signerId := signature.signerId, isValid := false,
              error := some ("Invalid cryptographic signature for "
                              ++ signature.signerId),
              hashChainValid := true, signatureValid := false }
          else
            { signerId := signature.signerId, isValid := true, error := none,
              hashChainValid := true, signatureValid := true }

/-- The per-index loop body result: index `i` is checked against the
chronological prefix `signatures[0..i-1]`. -/
def sigResultAt (c : Crypto) (payload : Payload) (sigs : List Signature)
    (registry : SignerRegistry) (i : Nat) : SignatureVerificationResult :=
  verifySignatureAtIndex c payload (sigs.getD i default) (sigs.take i) registry

/-- One iteration of the traversal loop at index `i`: prepend the
per-signature result; on failure clear `isValid` and latch the first
top-level error. -/
def traverseStep (c : Crypto) (payload : Payload) (sigs : List Signature)
    (registry : SignerRegistry) (i : Nat) (acc : VerificationResult) :
    VerificationResult :=
  let sigResult := sigResultAt c payload sigs registry i
  let acc' : VerificationResult :=
    { acc with signatureResults := sigResult :: acc.signatureResults }
  if ¬ sigResult.isValid then
    { acc' with
      isValid := false,
      error := match acc'.error with
        | some e => some e
        | none => some ("Signature chain broken at signer: "
                          ++ (sigs.getD i default).signerId) }
  else acc'

/-- The traversal loop `for (let i = length-1; i >= 0; i--)`: called with
`n`, it processes indices `n-1, n-2, …, 0` in that order. -/
def traverseLoop (c : Crypto) (payload : Payload) (sigs : List Signature)
    (registry : SignerRegistry) : Nat → VerificationResult → VerificationResult
  | 0, acc => acc
  | i + 1, acc => traverseLoop c payload sigs registry i
      (traverseStep c payload sigs registry i acc)

/-- A signed document (src/types.ts `SignedDocument`); `payload` and
`signatures` are optional to model the falsy checks
`!document.payload` and `!document?.signatures` in the source. -/
structure SignedDocument where
  payload : Option Payload
  signatures : Option (List Signature)

/-- `traverse` from src/traversal.ts: structural precondition checks, then
the reverse traversal loop. The document itself is optional to model
`traverse(null)`. -/
def traverse (c : Crypto) (document : Option SignedDocument)
    (registry : SignerRegistry) : VerificationResult :=
  let noSigs : VerificationResult :=
    { isValid := false, error := some "Document has no signatures",
      signatureResults := [] }
  match document with
  | none => noSigs
  | some doc =>
      match doc.signatures with
      | none => noSigs
      | some sigs =>
          if sigs.length = 0 then noSigs
          else
            match doc.payload with
            | none =>
                { isValid := false, error := some "Document has no payload",
                  signatureResults := [] }
            | some payload =>
                traverseLoop c payload sigs registry sigs.length
                  { isValid := true, error := none, signatureResults := [] }

/-- An idealized collision-free hash for concrete witnesses (the spec
treats the hash as an external collision-resistant capability); identity
recovery returns the signature bytes themselves, so a "signed" record is
one whose signature bytes equal the signer's registered address. -/
def idCrypto : Crypto :=
  { hash := fun s => s, recoverIdentity := fun _ sigBytes => some sigBytes }

/-- A crypto capability whose recovery primitive always fails (throws). -/
def failCrypto : Crypto :=
  { hash := fun s => s, recoverIdentity := fun _ _ => none }

/-- The empty signer registry. -/
def regNone : SignerRegistry := fun _ => none

/-- A registry used by concrete fixtures: alice ↦ "A", bob ↦ "B". -/
def regAB : SignerRegistry :=
  fun id => if id = "alice" then some "A" else if id = "bob" then some "B" else none

/-- Fixture payload for concrete documents. -/
def pOrig : Payload := [("documentId", .str "doc-1"), ("content", .str "original")]

/-- The same fixture payload with its content mutated after signing. -/
def pMut : Payload := [("documentId", .str "doc-1"), ("content", .str "Original")]

/-- First chain signature of the fixture document, validly signed under
`idCrypto` and `regAB` (its bytes are alice's registered address). -/
def sigAlice : Signature :=
  { signerId := "alice", signature := "A", signedAt := "t1",
    signedHash := calculateExpectedHash idCrypto.hash pOrig [] }

/-- Second chain signature of the fixture document, validly signed under
`idCrypto` and `regAB`. -/
def sigBob : Signature :=
  { signerId := "bob", signature := "B", signedAt := "t2",
    signedHash := calculateExpectedHash idCrypto.hash pOrig [sigAlice] }

/-- The validly signed two-signature fixture document. -/
def docValid : SignedDocument :=
  { payload := some pOrig, signatures := some [sigAlice, sigBob] }

/-- The fixture document with payload mutated after signing. -/
def docMut : SignedDocument :=
  { payload := some pMut, signatures := some [sigAlice, sigBob] }

/-- `sigBob` with corrupted cryptographic signature bytes (recorded
`signedHash` left unchanged). -/
def sigBobCorrupt : Signature :=
  { signerId := "bob", signature := "X", signedAt := "t2",
    signedHash := sigBob.signedHash }

/-- `sigAlice` with corrupted cryptographic signature bytes (recorded
`signedHash` left unchanged). -/
def sigAliceCorrupt : Signature :=
  { signerId := "alice", signature := "X", signedAt := "t1",
    signedHash := sigAlice.signedHash }

/-- The fixture document with the first signature's bytes corrupted. -/
def docCorruptFirst : SignedDocument :=
  { payload := some pOrig, signatures := some [sigAliceCorrupt, sigBob] }

/-- A registry whose only entry maps bob to the empty string. -/
def regEmptyBob : SignerRegistry :=
  fun id => if id = "bob" then some "" else none

/-- A document from a payload and a signature list (both present). -/
def mkDoc (p : Payload) (sigs : List Signature) : SignedDocument :=
  { payload := some p, signatures := some sigs }

/-! ### Basic string infrastructure -/

theorem uint32_toNat_inj {a b : UInt32} (h : a.toNat = b.toNat) : a = b := by
  cases a; cases b; exact congrArg UInt32.mk (BitVec.eq_of_toNat_eq h)

theorem char_toNat_inj {a b : Char} (h : a.toNat = b.toNat) : a = b :=
  Char.eq_of_val_eq (uint32_toNat_inj h)

theorem string_data_inj {s t : String} (h : s.data = t.data) : s = t := by
  cases s; cases t; exact congrArg String.mk h

theorem string_append_data (a b : String) : (a ++ b).data = a.data ++ b.data :=
  String.data_append a b

theorem string_append_right_cancel {a b c : String} (h : a ++ c = b ++ c) : a = b := by
  apply string_data_inj
  have hd := congrArg String.data h
  rw [string_append_data, string_append_data] at hd
  exact List.append_cancel_right hd

theorem string_append_left_cancel {a b c : String} (h : a ++ b = a ++ c) : b = c := by
  apply string_data_inj
  have hd := congrArg String.data h
  rw [string_append_data, string_append_data] at hd
  exact List.append_cancel_left hd

theorem string_append_ne_left {a x y : String} (h : x ≠ y) : a ++ x ≠ a ++ y :=
  fun he => h (string_append_left_cancel he)

theorem string_append_ne_right {x y b : String} (h : x ≠ y) : x ++ b ≠ y ++ b :=
  fun he => h (string_append_right_cancel he)

/-- Characters whose escape sequence is a backslash pair. -/
def isEscaped (c : Char) : Bool :=
  c = '"' || c = '\\' || c = '\n' || c = '\t' || c = '\r'

theorem escapeChar_of_not_escaped {c : Char} (h : isEscaped c = false) :
    escapeChar c = [c] := by
  simp only [isEscaped, Bool.or_eq_false_iff, decide_eq_false_iff_not] at h
  obtain ⟨⟨⟨⟨h1, h2⟩, h3⟩, h4⟩, h5⟩ := h
  simp [escapeChar, h1, h2, h3, h4, h5]

/-- The second character of an escape pair. -/
def escapeCode (c : Char) : Char :=
  if c = '"' then '"'
  else if c = '\\' then '\\'
  else if c = '\n' then 'n'
  else if c = '\t' then 't'
  else 'r'

theorem escapeChar_of_escaped {c : Char} (h : isEscaped c = true) :
    escapeChar c = ['\\', escapeCode c] := by
  simp only [isEscaped, Bool.or_eq_true, decide_eq_true_eq] at h
  rcases h with ((((h | h) | h) | h) | h) <;> subst h <;> rfl

theorem escapeCode_inj {a b : Char} (ha : isEscaped a = true)
    (hb : isEscaped b = true) (h : escapeCode a = escapeCode b) : a = b := by
  simp only [isEscaped, Bool.or_eq_true, decide_eq_true_eq] at ha hb
  rcases ha with ((((ha | ha) | ha) | ha) | ha) <;>
    rcases hb with ((((hb | hb) | hb) | hb) | hb) <;>
      subst ha <;> subst hb <;> first | rfl | (exact absurd h (by decide))

/-- `escapeChars` is injective: escape pairs start with a backslash and a
backslash is itself always escaped, so decoding is unambiguous. -/
theorem escapeChars_inj : ∀ {l1 l2 : List Char},
    escapeChars l1 = escapeChars l2 → l1 = l2 := by
  intro l1
  induction l1 with
  | nil =>
      intro l2 h
      cases l2 with
      | nil => rfl
      | cons c cs =>
          exfalso
          rw [escapeChars, escapeChars] at h
          cases hc : isEscaped c with
          | true => rw [escapeChar_of_escaped hc] at h; exact List.noConfusion h.symm
          | false => rw [escapeChar_of_not_escaped hc] at h; exact List.noConfusion h.symm
  | cons c cs ih =>
      intro l2 h
      cases l2 with
      | nil =>
          exfalso
          rw [escapeChars, escapeChars] at h
          cases hc : isEscaped c with
          | true => rw [escapeChar_of_escaped hc] at h; exact List.noConfusion h
          | false => rw [escapeChar_of_not_escaped hc] at h; exact List.noConfusion h
      | cons d ds =>
          rw [escapeChars, escapeChars] at h
          cases hc : isEscaped c with
          | true =>
              cases hd : isEscaped d with
              | true =>
                  rw [escapeChar_of_escaped hc, escapeChar_of_escaped hd] at h
                  simp only [List.cons_append, List.nil_append,
                    List.cons.injEq, true_and] at h
                  rw [escapeCode_inj hc hd h.1, ih h.2]
              | false =>
                  rw [escapeChar_of_escaped hc, escapeChar_of_not_escaped hd] at h
                  simp only [List.cons_append, List.nil_append,
                    List.cons.injEq] at h
                  exfalso
                  have hdb : d = '\\' := h.1.symm
                  rw [hdb] at hd
                  exact absurd hd (by decide)
          | false =>
              cases hd : isEscaped d with
              | true =>
                  rw [escapeChar_of_not_escaped hc, escapeChar_of_escaped hd] at h
                  simp only [List.cons_append, List.nil_append,
                    List.cons.injEq] at h
                  exfalso
                  have hcb : c = '\\' := h.1
                  rw [hcb] at hc
                  exact absurd hc (by decide)
              | false =>
                  rw [escapeChar_of_not_escaped hc, escapeChar_of_not_escaped hd] at h
                  simp only [List.cons_append, List.nil_append,
                    List.cons.injEq] at h
                  rw [h.1, ih h.2]

theorem quote_inj {s t : String} (h : quote s = quote t) : s = t := by
  apply string_data_inj
  have hd := congrArg String.data h
  simp only [quote] at hd
  have h2 : escapeChars s.data ++ ['"'] = escapeChars t.data ++ ['"'] :=
    List.cons.inj hd |>.2
  exact escapeChars_inj (List.append_cancel_right h2)

theorem quote_ne {s t : String} (h : s ≠ t) : quote s ≠ quote t :=
  fun he => h (quote_inj he)

/-! ### Characterization of the traversal loop -/

/-- Left-biased choice on optional errors (the `if (!result.error)` latch). -/
def optOr (a b : Option String) : Option String :=
  match a with
  | some x => some x
  | none => b

theorem optOr_none (a : Option String) : optOr a none = a := by
  cases a <;> rfl

theorem optOr_assoc (a b c : Option String) :
    optOr (optOr a b) c = optOr a (optOr b c) := by
  cases a <;> rfl

/-- The top-level error message latched at index `i`. -/
def chainBrokenMsg (sigs : List Signature) (i : Nat) : String :=
  "Signature chain broken at signer: " ++ (sigs.getD i default).signerId

/-- The error produced by the loop over indices `n-1, …, 0`: the message of
the first invalid index in processing order, i.e. the highest invalid
index below `n`. -/
def firstError (c : Crypto) (payload : Payload) (sigs : List Signature)
    (registry : SignerRegistry) (n : Nat) : Option String :=
  ((List.range n).reverse.find?
      (fun i => ! (sigResultAt c payload sigs registry i).isValid)).map
    (chainBrokenMsg sigs)

theorem traverseStep_signatureResults (c : Crypto) (p : Payload)
    (sigs : List Signature) (r : SignerRegistry) (i : Nat)
    (acc : VerificationResult) :
    (traverseStep c p sigs r i acc).signatureResults
      = sigResultAt c p sigs r i :: acc.signatureResults := by
  by_cases hv : (sigResultAt c p sigs r i).isValid = true <;>
    simp [traverseStep, hv]

theorem traverseStep_isValid (c : Crypto) (p : Payload)
    (sigs : List Signature) (r : SignerRegistry) (i : Nat)
    (acc : VerificationResult) :
    (traverseStep c p sigs r i acc).isValid
      = (acc.isValid && (sigResultAt c p sigs r i).isValid) := by
  by_cases hv : (sigResultAt c p sigs r i).isValid = true
  · simp [traverseStep, hv]
  · have hv' : (sigResultAt c p sigs r i).isValid = false := by simpa using hv
    simp [traverseStep, hv']

theorem traverseStep_error (c : Crypto) (p : Payload)
    (sigs : List Signature) (r : SignerRegistry) (i : Nat)
    (acc : VerificationResult) :
    (traverseStep c p sigs r i acc).error
      = (if (sigResultAt c p sigs r i).isValid then acc.error
         else optOr acc.error (some (chainBrokenMsg sigs i))) := by
  by_cases hv : (sigResultAt c p sigs r i).isValid = true
  · simp [traverseStep, hv]
  · have hv' : (sigResultAt c p sigs r i).isValid = false := by simpa using hv
    cases he : acc.error <;>
      simp [traverseStep, hv', optOr, chainBrokenMsg, he]

theorem traverseLoop_signatureResults (c : Crypto) (p : Payload)
    (sigs : List Signature) (r : SignerRegistry) :
    ∀ (n : Nat) (acc : VerificationResult),
      (traverseLoop c p sigs r n acc).signatureResults
        = (List.range n).map (sigResultAt c p sigs r) ++ acc.signatureResults := by
  intro n
  induction n with
  | zero => intro acc; simp [traverseLoop]
  | succ m ih =>
      intro acc
      rw [traverseLoop, ih, List.range_succ]
      simp [traverseStep_signatureResults]

theorem traverseLoop_isValid (c : Crypto) (p : Payload)
    (sigs : List Signature) (r : SignerRegistry) :
    ∀ (n : Nat) (acc : VerificationResult),
      (traverseLoop c p sigs r n acc).isValid
        = (acc.isValid
            && (List.range n).all (fun i => (sigResultAt c p sigs r i).isValid)) := by
  intro n
  induction n with
  | zero => intro acc; simp [traverseLoop]
  | succ m ih =>
      intro acc
      rw [traverseLoop, ih, traverseStep_isValid, List.range_succ]
      simp [Bool.and_assoc, Bool.and_comm, Bool.and_left_comm]

theorem traverseLoop_error (c : Crypto) (p : Payload)
    (sigs : List Signature) (r : SignerRegistry) :
    ∀ (n : Nat) (acc : VerificationResult),
      (traverseLoop c p sigs r n acc).error
        = optOr acc.error (firstError c p sigs r n) := by
  intro n
  induction n with
  | zero => intro acc; simp [traverseLoop, firstError, optOr_none]
  | succ m ih =>
      intro acc
      rw [traverseLoop, ih, traverseStep_error]
      have hrev : (List.range (m + 1)).reverse = m :: (List.range m).reverse := by
        rw [List.range_succ, List.reverse_append]
        rfl
      by_cases hv : (sigResultAt c p sigs r m).isValid = true
      · rw [if_pos hv]
        have hfind : List.find? (fun i => ! (sigResultAt c p sigs r i).isValid)
            (m :: (List.range m).reverse)
            = List.find? (fun i => ! (sigResultAt c p sigs r i).isValid)
                (List.range m).reverse :=
          List.find?_cons_of_neg _ (by simp [hv])
        simp only [firstError]
        rw [hrev, hfind]
      · have hv' : (sigResultAt c p sigs r m).isValid = false := by simpa using hv
        rw [if_neg hv]
        have hfind : List.find? (fun i => ! (sigResultAt c p sigs r i).isValid)
            (m :: (List.range m).reverse) = some m :=
          List.find?_cons_of_pos _ (by simp [hv'])
        simp only [firstError]
        rw [hrev, hfind, optOr_assoc]
        rfl

/-- Unfolding of `traverse` on a document passing the structural checks. -/
theorem traverse_eq_loop (c : Crypto) (doc : SignedDocument)
    (r : SignerRegistry) (p : Payload) (sigs : List Signature)
    (hs : doc.signatures = some sigs) (hne : sigs ≠ [])
    (hp : doc.payload = some p) :
    traverse c (some doc) r
      = traverseLoop c p sigs r sigs.length
          { isValid := true, error := none, signatureResults := [] } := by
  have h0 : ¬ (sigs.length = 0) := by
    intro h
    exact hne (List.length_eq_zero.mp h)
  simp only [traverse, hs, hp, if_neg h0]

/-- Results of a successful structural pass: one entry per signature index. -/
theorem traverse_signatureResults (c : Crypto) (doc : SignedDocument)
    (r : SignerRegistry) (p : Payload) (sigs : List Signature)
    (hs : doc.signatures = some sigs) (hne : sigs ≠ [])
    (hp : doc.payload = some p) :
    (traverse c (some doc) r).signatureResults
      = (List.range sigs.length).map (sigResultAt c p sigs r) := by
  rw [traverse_eq_loop c doc r p sigs hs hne hp, traverseLoop_signatureResults]
  simp

theorem traverse_isValid (c : Crypto) (doc : SignedDocument)
    (r : SignerRegistry) (p : Payload) (sigs : List Signature)
    (hs : doc.signatures = some sigs) (hne : sigs ≠ [])
    (hp : doc.payload = some p) :
    (traverse c (some doc) r).isValid
      = (List.range sigs.length).all
          (fun i => (sigResultAt c p sigs r i).isValid) := by
  rw [traverse_eq_loop c doc r p sigs hs hne hp, traverseLoop_isValid]
  simp

theorem traverse_error (c : Crypto) (doc : SignedDocument)
    (r : SignerRegistry) (p : Payload) (sigs : List Signature)
    (hs : doc.signatures = some sigs) (hne : sigs ≠ [])
    (hp : doc.payload = some p) :
    (traverse c (some doc) r).error = firstError c p sigs r sigs.length := by
  rw [traverse_eq_loop c doc r p sigs hs hne hp, traverseLoop_error]
  rfl

example : quote "a\"b" = String.mk ['"', 'a', '\\', '"', 'b', '"'] := rfl
example : serializeValue ["a"] (.obj [("a", .str "x")]) = "\x7b\"a\":\"x\"\x7d" := rfl
example : serializeValue ["a"] (.obj [("b", .str "x")]) = "\x7b\x7d" := rfl
example :
    serializePayload [("b", .str "2"), ("a", .str "1")]
      = "\x7b\"a\":\"1\",\"b\":\"2\"\x7d" := rfl
example :
    serializePayload [("a", .str "1"), ("m", .obj [("x", .str "2")])]
      = "\x7b\"a\":\"1\",\"m\":\x7b\x7d\x7d" := rfl

/-! ### Per-branch lemmas for verifySignatureAtIndex -/

theorem map_range_getD {α : Type} (f : Nat → α) (n i : Nat) (h : i < n) (d : α) :
    ((List.range n).map f).getD i d = f i := by
  rw [List.getD_eq_getElem?_getD, List.getElem?_map, List.getElem?_range h]
  rfl

theorem verifySignatureAtIndex_notFound {c : Crypto} {p : Payload}
    {sig : Signature} {prev : List Signature} {r : SignerRegistry}
    (hreg : r sig.signerId = none) :
    verifySignatureAtIndex c p sig prev r
      = { signerId := sig.signerId, isValid := false,
          error := some ("Signer " ++ sig.signerId ++ " not found in registry"),
          hashChainValid := false, signatureValid := false } := by
  unfold verifySignatureAtIndex
  rw [hreg]

theorem verifySignatureAtIndex_emptyAddr {c : Crypto} {p : Payload}
    {sig : Signature} {prev : List Signature} {r : SignerRegistry}
    (hreg : r sig.signerId = some "") :
    verifySignatureAtIndex c p sig prev r
      = { signerId := sig.signerId, isValid := false,
          error := some ("Signer " ++ sig.signerId ++ " not found in registry"),
          hashChainValid := false, signatureValid := false } := by
  unfold verifySignatureAtIndex
  rw [hreg]
  simp

theorem verifySignatureAtIndex_hashMismatch {c : Crypto} {p : Payload}
    {sig : Signature} {prev : List Signature} {r : SignerRegistry} {addr : String}
    (hreg : r sig.signerId = some addr) (haddr : addr ≠ "")
    (hm : calculateExpectedHash c.hash p prev ≠ sig.signedHash) :
    verifySignatureAtIndex c p sig prev r
      = { signerId := sig.signerId, isValid := false,
          error := some ("Hash chain broken: expected "
                          ++ calculateExpectedHash c.hash p prev
                          ++ ", got " ++ sig.signedHash),
          hashChainValid := false, signatureValid := false } := by
  unfold verifySignatureAtIndex
  rw [hreg]
  simp [haddr, hm]

theorem verifySignatureAtIndex_sigFail {c : Crypto} {p : Payload}
    {sig : Signature} {prev : List Signature} {r : SignerRegistry} {addr : String}
    (hreg : r sig.signerId = some addr) (haddr : addr ≠ "")
    (hh : calculateExpectedHash c.hash p prev = sig.signedHash)
    (hv : verifySignature c.recoverIdentity sig.signedHash sig.signature addr
            = false) :
    verifySignatureAtIndex c p sig prev r
      = { signerId := sig.signerId, isValid := false,
          error := some ("Invalid cryptographic signature for " ++ sig.signerId),
          hashChainValid := true, signatureValid := false } := by
  unfold verifySignatureAtIndex
  rw [hreg]
  simp [haddr, hh, hv]

theorem verifySignatureAtIndex_ok {c : Crypto} {p : Payload}
    {sig : Signature} {prev : List Signature} {r : SignerRegistry} {addr : String}
    (hreg : r sig.signerId = some addr) (haddr : addr ≠ "")
    (hh : calculateExpectedHash c.hash p prev = sig.signedHash)
    (hv : verifySignature c.recoverIdentity sig.signedHash sig.signature addr
            = true) :
    verifySignatureAtIndex c p sig prev r
      = { signerId := sig.signerId, isValid := true, error := none,
          hashChainValid := true, signatureValid := true } := by
  unfold verifySignatureAtIndex
  rw [hreg]
  simp [haddr, hh, hv]

theorem verifySignatureAtIndex_signerId (c : Crypto) (p : Payload)
    (sig : Signature) (prev : List Signature) (r : SignerRegistry) :
    (verifySignatureAtIndex c p sig prev r).signerId = sig.signerId := by
  unfold verifySignatureAtIndex
  cases hreg : r sig.signerId with
  | none => rfl
  | some addr =>
      by_cases ha : addr = ""
      · simp [ha]
      · by_cases hm : calculateExpectedHash c.hash p prev ≠ sig.signedHash
        · simp [ha, hm]
        · by_cases hv : verifySignature c.recoverIdentity sig.signedHash
              sig.signature addr = true
          · simp [ha, hm, hv]
          · simp [ha, hm, hv]

theorem find_reverse_range {p : Nat → Bool} {n j : Nat} (hj : j < n)
    (hpj : p j = true) (hafter : ∀ k, j < k → k < n → p k = false) :
    List.find? p (List.range n).reverse = some j := by
  induction n with
  | zero => exact absurd hj (Nat.not_lt_zero j)
  | succ m ih =>
      have hrev : (List.range (m + 1)).reverse = m :: (List.range m).reverse := by
        rw [List.range_succ, List.reverse_append]
        rfl
      rw [hrev]
      by_cases hjm : j = m
      · subst hjm
        exact List.find?_cons_of_pos _ hpj
      · have hjlt : j < m := Nat.lt_of_le_of_ne (Nat.lt_succ_iff.mp hj) hjm
        have hm : p m = false := hafter m hjlt (Nat.lt_succ_self m)
        rw [List.find?_cons_of_neg _ (by simp [hm])]
        exact ih hjlt (fun k hk1 hk2 => hafter k hk1 (Nat.lt_succ_of_lt hk2))

/-! ### Claim C8 -/

/-- Claim C8: `traverse` returns a structural failure with an empty result
list, independent of the crypto capabilities, exactly when a structural
precondition fails: absent document or absent/empty signature sequence
gives the "no signatures" error; otherwise an absent payload gives the
"no payload" error; the signatures check comes first, so a document
lacking both yields "no signatures"; and when both preconditions pass the
result list is nonempty (one entry per signature), so no structural
failure occurs. -/
theorem claim8_structural_preconditions (c c2 : Crypto) (registry : SignerRegistry) :
    (∀ doc : Option SignedDocument,
      (doc = none
        ∨ (∃ d, doc = some d
            ∧ (d.signatures = none ∨ d.signatures = some []))) →
      traverse c doc registry
        = { isValid := false, error := some "Document has no signatures",
            signatureResults := [] })
  ∧ (∀ d : SignedDocument, ∀ sigs : List Signature,
      d.signatures = some sigs → sigs ≠ [] → d.payload = none →
      traverse c (some d) registry
        = { isValid := false, error := some "Document has no payload",
            signatureResults := [] })
  ∧ (∀ (d : SignedDocument) (sigs : List Signature) (p : Payload),
      d.signatures = some sigs → sigs ≠ [] → d.payload = some p →
      (traverse c (some d) registry).signatureResults.length = sigs.length
        ∧ (traverse c (some d) registry).signatureResults ≠ [])
  ∧ (∀ doc : Option SignedDocument,
      (doc = none
        ∨ (∃ d, doc = some d
            ∧ (d.signatures = none ∨ d.signatures = some [] ∨ d.payload = none))) →
      traverse c doc registry = traverse c2 doc registry) := by
  refine ⟨?_, ?_, ?_, ?_⟩
  · intro doc h
    rcases h with h | ⟨d, hd, hcase⟩
    · rw [h]; rfl
    · subst hd
      rcases hcase with h | h <;> simp [traverse, h]
  · intro d sigs hs hne hp
    have h0 : ¬ (sigs.length = 0) := fun h => hne (List.length_eq_zero.mp h)
    simp [traverse, hs, hp, h0, hne]
  · intro d sigs p hs hne hp
    rw [traverse_signatureResults c d registry p sigs hs hne hp]
    constructor
    · simp
    · simp only [ne_eq, List.map_eq_nil_iff, List.range_eq_nil]
      intro h
      exact hne (List.length_eq_zero.mp h)
  · intro doc h
    rcases h with h | ⟨d, hd, hcase⟩
    · rw [h]
      rfl
    · subst hd
      rcases hcase with h | h | h
      · simp [traverse, h]
      · simp [traverse, h]
      · by_cases hs : ∃ sigs, d.signatures = some sigs ∧ sigs ≠ []
        · obtain ⟨sigs, hsig, hne⟩ := hs
          have h0 : ¬ (sigs.length = 0) := fun h2 => hne (List.length_eq_zero.mp h2)
          simp [traverse, hsig, h, if_neg h0]
        · push_neg at hs
          cases hsig : d.signatures with
          | none => simp [traverse, hsig]
          | some sigs =>
              have : sigs = [] := by
                by_contra hne
                exact hne (hs sigs hsig)
              subst this
              simp [traverse, hsig]

/-- Closed witness for claim C8 at concrete inputs. -/
theorem claim8_witness :
    traverse idCrypto
        (some { payload := none,
                signatures := some [{ signerId := "alice", signature := "s",
                                      signedAt := "t", signedHash := "h" }] })
        regNone
      = { isValid := false, error := some "Document has no payload",
          signatureResults := [] } :=
  (claim8_structural_preconditions idCrypto failCrypto regNone).2.1
    _ _ rfl (by decide) rfl

/-! ### Claim C2 -/

/-- Claim C2: on any document passing the structural preconditions the
traversal processes every signature (no early abort): the result list has
exactly one entry per signature and entry `i` is the verification result
of signature `i` against the chronological prefix `0..i-1`, so the list
is chronological regardless of the reverse traversal order and of any
failures; in particular entry `i` carries signature `i`'s signerId. -/
theorem claim2_results_chronological (c : Crypto) (doc : SignedDocument)
    (registry : SignerRegistry) (p : Payload) (sigs : List Signature)
    (hs : doc.signatures = some sigs) (hne : sigs ≠ [])
    (hp : doc.payload = some p) :
    (traverse c (some doc) registry).signatureResults.length = sigs.length
  ∧ (∀ i, i < sigs.length →
      (traverse c (some doc) registry).signatureResults.getD i default
        = verifySignatureAtIndex c p (sigs.getD i default) (sigs.take i) registry
      ∧ ((traverse c (some doc) registry).signatureResults.getD i default).signerId
          = (sigs.getD i default).signerId) := by
  rw [traverse_signatureResults c doc registry p sigs hs hne hp]
  constructor
  · simp
  · intro i hi
    rw [map_range_getD _ _ _ hi]
    exact ⟨rfl, verifySignatureAtIndex_signerId c p _ _ registry⟩

/-- Closed witness for claim C2: the valid two-signature fixture. -/
theorem claim2_witness :
    (traverse idCrypto (some docValid) regAB).signatureResults.length = 2
  ∧ ((traverse idCrypto (some docValid) regAB).signatureResults.getD 0
        default).signerId = "alice"
  ∧ ((traverse idCrypto (some docValid) regAB).signatureResults.getD 1
        default).signerId = "bob" := by
  have h := claim2_results_chronological idCrypto docValid regAB pOrig
    [sigAlice, sigBob] rfl (by decide) rfl
  refine ⟨h.1, ?_, ?_⟩
  · rw [(h.2 0 (by decide)).2]; rfl
  · rw [(h.2 1 (by decide)).2]; rfl

/-- `sigResultAt` is just the loop-body call of `verifySignatureAtIndex`. -/
theorem sigResultAt_eq (c : Crypto) (p : Payload) (sigs : List Signature)
    (r : SignerRegistry) (i : Nat) :
    sigResultAt c p sigs r i
      = verifySignatureAtIndex c p (sigs.getD i default) (sigs.take i) r := rfl

/-! ### Claim C1 -/

/-- Claim C1 as stated is falsified by a document with a signature but no
payload: the result has `isValid = false` even though every per-signature
result in the (empty) result list is valid and the document has one
signature. -/
theorem claim1_counterexample :
    (traverse idCrypto
        (some { payload := none,
                signatures := some [{ signerId := "alice", signature := "s",
                                      signedAt := "t", signedHash := "h" }] })
        regNone)
      = { isValid := false, error := some "Document has no payload",
          signatureResults := [] }
  ∧ (some [{ signerId := "alice", signature := "s", signedAt := "t",
             signedHash := "h" }] : Option (List Signature)).getD [] ≠ [] := by
  exact ⟨rfl, by decide⟩

/-- Claim C1 (amended): `isValid = true` iff every per-signature result is
valid AND the document has at least one signature AND a payload; the
top-level error is present iff `isValid` is false. -/
theorem claim1_amended (c : Crypto) (doc : Option SignedDocument)
    (registry : SignerRegistry) :
    ((traverse c doc registry).isValid = true ↔
      ((traverse c doc registry).signatureResults.all (fun res => res.isValid)
          = true
        ∧ ∃ d sigs p, doc = some d ∧ d.signatures = some sigs ∧ sigs ≠ []
            ∧ d.payload = some p))
  ∧ ((traverse c doc registry).isValid = false ↔
      (traverse c doc registry).error.isSome = true) := by
  cases doc with
  | none => simp [traverse]
  | some d =>
      cases hsig : d.signatures with
      | none => simp [traverse, hsig]
      | some sigs =>
          by_cases h0 : sigs.length = 0
          · have he : sigs = [] := List.length_eq_zero.mp h0
            subst he
            simp [traverse, hsig]
          · cases hp : d.payload with
            | none => simp [traverse, hsig, h0, hp]
            | some p =>
                have hne : sigs ≠ [] := fun h => h0 (by simp [h])
                rw [traverse_isValid c d registry p sigs hsig hne hp,
                    traverse_error c d registry p sigs hsig hne hp,
                    traverse_signatureResults c d registry p sigs hsig hne hp]
                constructor
                · constructor
                  · intro hv
                    refine ⟨?_, ⟨d, sigs, p, rfl, hsig, hne, hp⟩⟩
                    simpa [List.all_map, Function.comp] using hv
                  · rintro ⟨hall, -⟩
                    simpa [List.all_map, Function.comp] using hall
                · rw [firstError, Option.isSome_map', List.find?_isSome]
                  rw [List.all_eq_false]
                  constructor
                  · rintro ⟨i, hmem, hfalse⟩
                    exact ⟨i, List.mem_reverse.mpr hmem, by
                      simp only [Bool.not_eq_true] at hfalse
                      simp [hfalse]⟩
                  · rintro ⟨i, hmem, hpred⟩
                    refine ⟨i, List.mem_reverse.mp hmem, ?_⟩
                    simp only [Bool.not_eq_true', Bool.not_eq_true] at hpred
                    simp [hpred]

/-! ### Claim C3 -/

/-- Claim C3 as stated is falsified by capitalization: on a document with
an invalid signature the code's top-level error starts with a capital
"Signature chain broken at signer: …", not the claimed lowercase
"signature chain broken at signer: …". -/
theorem claim3_counterexample :
    (traverse idCrypto
        (some { payload := some pOrig,
                signatures := some [{ signerId := "alice", signature := "s",
                                      signedAt := "t", signedHash := "h" }] })
        regNone).error
      = some "Signature chain broken at signer: alice"
  ∧ ((traverse idCrypto
        (some { payload := some pOrig,
                signatures := some [{ signerId := "alice", signature := "s",
                                      signedAt := "t", signedHash := "h" }] })
        regNone).signatureResults.getD 0 default).isValid = false
  ∧ some "Signature chain broken at signer: alice"
      ≠ some ("signature chain broken at signer: " ++ "alice") := by
  exact ⟨rfl, rfl, by decide⟩

/-- Claim C3 (amended): with the code's capitalization, on a document with
at least one invalid signature the top-level error is exactly
"Signature chain broken at signer: {signerId}" for the invalid signature
with the highest index (the first failure encountered during reverse
traversal); failures found later in the traversal never overwrite it. -/
theorem claim3_amended (c : Crypto) (doc : SignedDocument)
    (registry : SignerRegistry) (p : Payload) (sigs : List Signature)
    (hs : doc.signatures = some sigs) (hne : sigs ≠ [])
    (hp : doc.payload = some p) (j : Nat) (hj : j < sigs.length)
    (hinv : (sigResultAt c p sigs registry j).isValid = false)
    (hafter : ∀ k, j < k → k < sigs.length →
        (sigResultAt c p sigs registry k).isValid = true) :
    (traverse c (some doc) registry).error
      = some ("Signature chain broken at signer: "
                ++ (sigs.getD j default).signerId) := by
  rw [traverse_error c doc registry p sigs hs hne hp]
  unfold firstError
  rw [find_reverse_range hj (by simp [hinv])
    (fun k h1 h2 => by simp [hafter k h1 h2])]
  rfl

/-- Closed witness for the amended claim C3. -/
theorem claim3_witness :
    (traverse idCrypto
        (some { payload := some pOrig,
                signatures := some [{ signerId := "bob", signature := "s",
                                      signedAt := "t", signedHash := "h" }] })
        regNone).error
      = some ("Signature chain broken at signer: " ++ "bob") := by
  have h := claim3_amended idCrypto
    { payload := some pOrig,
      signatures := some [{ signerId := "bob", signature := "s",
                            signedAt := "t", signedHash := "h" }] }
    regNone pOrig
    [{ signerId := "bob", signature := "s", signedAt := "t", signedHash := "h" }]
    rfl (by decide) rfl 0 (by decide) (by decide)
    (by intro k h1 h2
        simp only [List.length_cons, List.length_nil] at h2
        omega)
  exact h

/-! ### Claim C7 -/

/-- Claim C7: when the signer is found (truthy address) but the recomputed
expected hash differs from the recorded signedHash, the per-signature
result is invalid with `hashChainValid = false`, an error naming the
expected and actual hash values, and `signatureValid = false`; the
cryptographic check is never invoked: the result is unchanged under any
replacement of the recovery oracle (same hash capability). -/
theorem claim7_hash_mismatch_short_circuit (c c2 : Crypto) (p : Payload)
    (sig : Signature) (prev : List Signature) (registry : SignerRegistry)
    (addr : String) (hreg : registry sig.signerId = some addr)
    (haddr : addr ≠ "")
    (hm : calculateExpectedHash c.hash p prev ≠ sig.signedHash) :
    verifySignatureAtIndex c p sig prev registry
      = { signerId := sig.signerId, isValid := false,
          error := some ("Hash chain broken: expected "
                          ++ calculateExpectedHash c.hash p prev
                          ++ ", got " ++ sig.signedHash),
          hashChainValid := false, signatureValid := false }
  ∧ (c2.hash = c.hash →
      verifySignatureAtIndex c2 p sig prev registry
        = verifySignatureAtIndex c p sig prev registry) := by
  refine ⟨verifySignatureAtIndex_hashMismatch hreg haddr hm, ?_⟩
  intro hh
  rw [verifySignatureAtIndex_hashMismatch hreg haddr hm,
      verifySignatureAtIndex_hashMismatch hreg haddr (by rw [hh]; exact hm),
      hh]

/-- Closed witness for claim C7. -/
theorem claim7_witness :
    verifySignatureAtIndex idCrypto pOrig
        { signerId := "alice", signature := "A", signedAt := "t1",
          signedHash := "WRONG" } [] regAB
      = { signerId := "alice", isValid := false,
          error := some ("Hash chain broken: expected "
                          ++ calculateExpectedHash idCrypto.hash pOrig []
                          ++ ", got " ++ "WRONG"),
          hashChainValid := false, signatureValid := false } :=
  (claim7_hash_mismatch_short_circuit idCrypto failCrypto pOrig
    { signerId := "alice", signature := "A", signedAt := "t1",
      signedHash := "WRONG" }
    [] regAB "A" rfl (by decide) (by decide)).1

/-! ### Claim C9 -/

/-- Claim C9: a failure (exception) of the external recovery primitive
during the cryptographic check yields `signatureValid = false` for that
entry only; the traversal still returns a complete result (one entry per
signature, every entry evaluated as usual), so the failure is never
propagated as a failure of the whole traversal. -/
theorem claim9_recovery_failure (c : Crypto) (doc : SignedDocument)
    (registry : SignerRegistry) (p : Payload) (sigs : List Signature)
    (hs : doc.signatures = some sigs) (hne : sigs ≠ [])
    (hp : doc.payload = some p) (i : Nat) (hi : i < sigs.length)
    (addr : String)
    (hreg : registry (sigs.getD i default).signerId = some addr)
    (haddr : addr ≠ "")
    (hh : calculateExpectedHash c.hash p (sigs.take i)
            = (sigs.getD i default).signedHash)
    (hrec : c.recoverIdentity (sigs.getD i default).signedHash
              (sigs.getD i default).signature = none) :
    ((traverse c (some doc) registry).signatureResults.getD i
        default).signatureValid = false
  ∧ ((traverse c (some doc) registry).signatureResults.getD i
        default).isValid = false
  ∧ (traverse c (some doc) registry).signatureResults.length = sigs.length
  ∧ (∀ k, k < sigs.length →
      (traverse c (some doc) registry).signatureResults.getD k default
        = verifySignatureAtIndex c p (sigs.getD k default) (sigs.take k)
            registry) := by
  have hres := traverse_signatureResults c doc registry p sigs hs hne hp
  have hv : verifySignature c.recoverIdentity (sigs.getD i default).signedHash
      (sigs.getD i default).signature addr = false := by
    unfold verifySignature
    rw [hrec]
  have hentry := verifySignatureAtIndex_sigFail hreg haddr hh hv
  refine ⟨?_, ?_, ?_, ?_⟩
  · rw [hres, map_range_getD _ _ _ hi, sigResultAt_eq, hentry]
  · rw [hres, map_range_getD _ _ _ hi, sigResultAt_eq, hentry]
  · rw [hres]
    simp
  · intro k hk
    rw [hres, map_range_getD _ _ _ hk, sigResultAt_eq]

/-- Closed witness for claim C9: `failCrypto`'s recovery primitive always
fails, and the single correctly chained signature is reported with
`signatureValid = false` while the traversal completes. -/
theorem claim9_witness :
    ((traverse failCrypto
        (some { payload := some pOrig, signatures := some [sigAlice] })
        regAB).signatureResults.getD 0 default).signatureValid = false
  ∧ ((traverse failCrypto
        (some { payload := some pOrig, signatures := some [sigAlice] })
        regAB).signatureResults.getD 0 default).isValid = false
  ∧ (traverse failCrypto
        (some { payload := some pOrig, signatures := some [sigAlice] })
        regAB).signatureResults.length = 1 := by
  have h := claim9_recovery_failure failCrypto
    { payload := some pOrig, signatures := some [sigAlice] }
    regAB pOrig [sigAlice] rfl (by decide) rfl 0 (by decide) "A" rfl
    (by decide) rfl rfl
  exact ⟨h.1, h.2.1, h.2.2.1⟩

/-! ### Claim C10 -/

/-- Claim C10: an empty-string registry address is treated as absence: the
entry's result is invalid with the "not found in registry" error, both
`hashChainValid` and `signatureValid` are reported false, and neither
check is performed (the entry's result is unchanged under any replacement
of both crypto capabilities). -/
theorem claim10_falsy_registry (c c2 : Crypto) (doc : SignedDocument)
    (registry : SignerRegistry) (p : Payload) (sigs : List Signature)
    (hs : doc.signatures = some sigs) (hne : sigs ≠ [])
    (hp : doc.payload = some p) (i : Nat) (hi : i < sigs.length)
    (hreg : registry (sigs.getD i default).signerId = some "") :
    (traverse c (some doc) registry).signatureResults.getD i default
      = { signerId := (sigs.getD i default).signerId, isValid := false,
          error := some ("Signer " ++ (sigs.getD i default).signerId
                          ++ " not found in registry"),
          hashChainValid := false, signatureValid := false }
  ∧ verifySignatureAtIndex c2 p (sigs.getD i default) (sigs.take i) registry
      = verifySignatureAtIndex c p (sigs.getD i default) (sigs.take i)
          registry := by
  constructor
  · rw [traverse_signatureResults c doc registry p sigs hs hne hp,
        map_range_getD _ _ _ hi, sigResultAt_eq]
    exact verifySignatureAtIndex_emptyAddr hreg
  · rw [verifySignatureAtIndex_emptyAddr hreg,
        verifySignatureAtIndex_emptyAddr hreg]

/-- Closed witness for claim C10. -/
theorem claim10_witness :
    (traverse idCrypto
        (some { payload := some pOrig,
                signatures := some [{ signerId := "bob", signature := "s",
                                      signedAt := "t", signedHash := "h" }] })
        regEmptyBob).signatureResults.getD 0 default
      = { signerId := "bob", isValid := false,
          error := some ("Signer " ++ "bob" ++ " not found in registry"),
          hashChainValid := false, signatureValid := false } :=
  (claim10_falsy_registry idCrypto failCrypto
    { payload := some pOrig,
      signatures := some [{ signerId := "bob", signature := "s",
                            signedAt := "t", signedHash := "h" }] }
    regEmptyBob pOrig
    [{ signerId := "bob", signature := "s", signedAt := "t", signedHash := "h" }]
    rfl (by decide) rfl 0 (by decide) rfl).1

/-! ### Order and sorting of keys -/

theorem charsLe_total : ∀ a b : List Char, charsLe a b = true ∨ charsLe b a = true := by
  intro a
  induction a with
  | nil => intro b; left; rfl
  | cons x xs ih =>
      intro b
      cases b with
      | nil => right; rfl
      | cons y ys =>
          by_cases hxy : x.toNat < y.toNat
          · left; simp [charsLe, hxy]
          · by_cases hyx : y.toNat < x.toNat
            · right; simp [charsLe, hyx]
            · rcases ih ys with h | h
              · left; simp [charsLe, hxy, hyx, h]
              · right; simp [charsLe, hxy, hyx, h]

theorem charsLe_antisymm : ∀ {a b : List Char},
    charsLe a b = true → charsLe b a = true → a = b := by
  intro a
  induction a with
  | nil =>
      intro b h1 h2
      cases b with
      | nil => rfl
      | cons y ys => simp [charsLe] at h2
  | cons x xs ih =>
      intro b h1 h2
      cases b with
      | nil => simp [charsLe] at h1
      | cons y ys =>
          by_cases hxy : x.toNat < y.toNat
          · have : ¬ y.toNat < x.toNat := by omega
            simp [charsLe, hxy, this] at h2
          · by_cases hyx : y.toNat < x.toNat
            · simp [charsLe, hxy, hyx] at h1
            · have hx : x = y := char_toNat_inj (by omega)
              subst hx
              simp only [charsLe, hxy, if_false, if_neg hyx] at h1 h2
              rw [ih h1 h2]

theorem charsLe_trans : ∀ {a b c : List Char},
    charsLe a b = true → charsLe b c = true → charsLe a c = true := by
  intro a
  induction a with
  | nil => intro b c h1 h2; rfl
  | cons x xs ih =>
      intro b c h1 h2
      cases b with
      | nil => simp [charsLe] at h1
      | cons y ys =>
          cases c with
          | nil => simp [charsLe] at h2
          | cons z zs =>
              simp only [charsLe] at h1 h2 ⊢
              by_cases hxy : x.toNat < y.toNat
              · by_cases hyz : y.toNat < z.toNat
                · have hxz : x.toNat < z.toNat := by omega
                  simp [hxz]
                · by_cases hzy : z.toNat < y.toNat
                  · simp [hyz, hzy] at h2
                  · have hxz : x.toNat < z.toNat := by omega
                    simp [hxz]
              · by_cases hyx : y.toNat < x.toNat
                · simp [hxy, hyx] at h1
                · by_cases hyz : y.toNat < z.toNat
                  · have hxz : x.toNat < z.toNat := by omega
                    simp [hxz]
                  · by_cases hzy : z.toNat < y.toNat
                    · simp [hyz, hzy] at h2
                    · have hxz : ¬ x.toNat < z.toNat := by omega
                      have hzx : ¬ z.toNat < x.toNat := by omega
                      simp only [if_neg hxz, if_neg hzx]
                      simp only [if_neg hxy, if_neg hyx] at h1
                      simp only [if_neg hyz, if_neg hzy] at h2
                      exact ih h1 h2

theorem strLe_total (a b : String) : strLe a b = true ∨ strLe b a = true :=
  charsLe_total a.data b.data

theorem strLe_antisymm {a b : String} (h1 : strLe a b = true)
    (h2 : strLe b a = true) : a = b :=
  string_data_inj (charsLe_antisymm h1 h2)

theorem strLe_trans {a b c : String} (h1 : strLe a b = true)
    (h2 : strLe b c = true) : strLe a c = true :=
  charsLe_trans h1 h2

theorem insertKey_perm (k : String) (l : List String) :
    (insertKey k l).Perm (k :: l) := by
  induction l with
  | nil => exact List.Perm.refl _
  | cons x xs ih =>
      by_cases h : strLe k x = true
      · simp only [insertKey, h, if_true]
        exact List.Perm.refl _
      · simp only [insertKey, h, if_false]
        exact (ih.cons x).trans (List.Perm.swap k x xs)

theorem sortKeys_perm (l : List String) : (sortKeys l).Perm l := by
  induction l with
  | nil => exact List.Perm.refl _
  | cons x xs ih =>
      exact (insertKey_perm x (sortKeys xs)).trans (ih.cons x)

theorem sorted_insertKey (k : String) {l : List String}
    (h : l.Sorted (fun a b => strLe a b = true)) :
    (insertKey k l).Sorted (fun a b => strLe a b = true) := by
  induction l with
  | nil => simp [insertKey]
  | cons x xs ih =>
      obtain ⟨hx, hxs⟩ := List.pairwise_cons.mp h
      by_cases hkx : strLe k x = true
      · simp only [insertKey, hkx, if_true]
        refine List.pairwise_cons.mpr ⟨?_, h⟩
        intro y hy
        rcases List.mem_cons.mp hy with hyx | hyxs
        · rw [hyx]; exact hkx
        · exact strLe_trans hkx (hx y hyxs)
      · simp only [insertKey, hkx, if_false]
        have hxk : strLe x k = true := (strLe_total k x).resolve_left hkx
        refine List.pairwise_cons.mpr ⟨?_, ih hxs⟩
        intro y hy
        have hy' : y ∈ k :: xs := (insertKey_perm k xs).mem_iff.mp hy
        rcases List.mem_cons.mp hy' with hyk | hyxs
        · rw [hyk]; exact hxk
        · exact hx y hyxs

theorem sorted_sortKeys (l : List String) :
    (sortKeys l).Sorted (fun a b => strLe a b = true) := by
  induction l with
  | nil => simp [sortKeys]
  | cons x xs ih => exact sorted_insertKey x ih

theorem sortKeys_eq_of_perm {l1 l2 : List String} (h : l1.Perm l2) :
    sortKeys l1 = sortKeys l2 := by
  haveI : IsAntisymm String (fun a b => strLe a b = true) :=
    ⟨fun a b h1 h2 => strLe_antisymm h1 h2⟩
  exact List.eq_of_perm_of_sorted
    ((sortKeys_perm l1).trans (h.trans (sortKeys_perm l2).symm))
    (sorted_sortKeys l1) (sorted_sortKeys l2)

/-! ### Serialization lemmas -/

theorem lookupKey_perm : ∀ {p1 p2 : List (String × Value)}, p1.Perm p2 →
    (p1.map Prod.fst).Nodup → ∀ k, lookupKey k p1 = lookupKey k p2 := by
  intro p1 p2 h
  induction h with
  | nil => intro _ k; rfl
  | cons x h ih =>
      intro hn k
      obtain ⟨k1, v1⟩ := x
      simp only [lookupKey]
      split
      · rfl
      · exact ih (List.nodup_cons.mp (by simpa using hn)).2 k
  | swap x y l =>
      intro hn k
      obtain ⟨kx, vx⟩ := x
      obtain ⟨ky, vy⟩ := y
      have hne : ky ≠ kx := by
        simp only [List.map_cons, List.nodup_cons] at hn
        exact fun h => hn.1 (List.mem_cons.mpr (Or.inl h))
      by_cases h1 : k = ky
      · subst h1
        simp [lookupKey, hne]
      · by_cases h2 : k = kx
        · subst h2
          simp [lookupKey, h1]
        · simp [lookupKey, h1, h2]
  | trans h1 h2 ih1 ih2 =>
      intro hn k
      rw [ih1 hn k, ih2 ((h1.map Prod.fst).nodup_iff.mp hn) k]

theorem lookupSer_serializeFields (K : List String) (k : String) :
    ∀ p : List (String × Value),
      lookupSer k (serializeFields K p) = (lookupKey k p).map (serializeValue K) := by
  intro p
  induction p with
  | nil => rfl
  | cons x rest ih =>
      obtain ⟨k2, v⟩ := x
      simp only [serializeFields, lookupSer, lookupKey]
      split
      · rfl
      · exact ih

theorem serializeValue_obj (K : List String) (p : List (String × Value)) :
    serializeValue K (.obj p)
      = "\x7b" ++ joinComma (K.filterMap (fun k =>
          (lookupKey k p).map (fun v => quote k ++ ":" ++ serializeValue K v)))
          ++ "\x7d" := by
  rw [serializeValue]
  have hcong : ∀ k ∈ K,
      (lookupSer k (serializeFields K p)).map (fun sv => quote k ++ ":" ++ sv)
        = (lookupKey k p).map (fun v => quote k ++ ":" ++ serializeValue K v) := by
    intro k _
    rw [lookupSer_serializeFields]
    cases lookupKey k p <;> rfl
  rw [List.filterMap_congr hcong]

theorem serializePayload_eq_of_perm {p1 p2 : Payload} (h : List.Perm p1 p2)
    (hn : ((p1 : List (String × Value)).map Prod.fst).Nodup) :
    serializePayload p1 = serializePayload p2 := by
  unfold serializePayload
  rw [sortKeys_eq_of_perm (h.map Prod.fst), serializeValue_obj, serializeValue_obj]
  have hcong : ∀ k ∈ sortKeys ((p2 : List (String × Value)).map Prod.fst),
      (lookupKey k p1).map (fun v => quote k ++ ":"
          ++ serializeValue (sortKeys ((p2 : List (String × Value)).map Prod.fst)) v)
        = (lookupKey k p2).map (fun v => quote k ++ ":"
            ++ serializeValue (sortKeys ((p2 : List (String × Value)).map Prod.fst)) v) := by
    intro k _
    rw [lookupKey_perm h hn k]
  rw [List.filterMap_congr hcong]

theorem foldl_append_serialize (l : List Signature) : ∀ init : String,
    l.foldl (fun acc sig => acc ++ serializeSignature sig) init
      = init ++ concatSer l := by
  induction l with
  | nil => intro init; simp [concatSer]
  | cons s rest ih =>
      intro init
      rw [List.foldl_cons, ih, concatSer, String.append_assoc]

theorem calculateExpectedHash_decomp (h : String → String) (p : Payload)
    (l : List Signature) :
    calculateExpectedHash h p l = h (serializePayload p ++ concatSer l) := by
  unfold calculateExpectedHash
  rw [foldl_append_serialize]

theorem concatSer_cons (s : Signature) (rest : List Signature) :
    concatSer (s :: rest) = serializeSignature s ++ concatSer rest := rfl

theorem concatSer_append (a b : List Signature) :
    concatSer (a ++ b) = concatSer a ++ concatSer b := by
  induction a with
  | nil => simp [concatSer]
  | cons s rest ih =>
      rw [List.cons_append, concatSer, ih, concatSer, String.append_assoc]

theorem serializeSignature_ne_bytes {s1 s2 : Signature}
    (hid : s1.signerId = s2.signerId) (hat : s1.signedAt = s2.signedAt)
    (hh : s1.signedHash = s2.signedHash) (hb : s1.signature ≠ s2.signature) :
    serializeSignature s1 ≠ serializeSignature s2 := by
  intro he
  apply hb
  have hd := congrArg String.data he
  simp only [serializeSignature, hid, hat, hh, string_append_data,
    List.append_assoc] at hd
  have h1 := List.append_cancel_left hd
  have h2 := List.append_cancel_left h1
  have h3 := List.append_cancel_left h2
  have h4 := List.append_cancel_right h3
  exact quote_inj (string_data_inj h4)

theorem joinComma_cons (a : String) {L : List String} (h : L ≠ []) :
    joinComma (a :: L) = a ++ "," ++ joinComma L := by
  cases L with
  | nil => exact absurd rfl h
  | cons b bs => rfl

theorem joinComma_ne : ∀ (A : List String) {x y : String} (B : List String),
    x ≠ y → joinComma (A ++ x :: B) ≠ joinComma (A ++ y :: B) := by
  intro A
  induction A with
  | nil =>
      intro x y B hxy
      cases B with
      | nil => simpa [joinComma] using hxy
      | cons b bs =>
          intro he
          rw [List.nil_append, List.nil_append,
            joinComma_cons x (by simp), joinComma_cons y (by simp)] at he
          exact hxy (string_append_right_cancel (string_append_right_cancel he))
  | cons a A ih =>
      intro x y B hxy he
      rw [List.cons_append, List.cons_append,
        joinComma_cons a (by simp), joinComma_cons a (by simp)] at he
      exact ih B hxy (string_append_left_cancel he)

theorem filterMap_single_diff {f g : String → Option String} :
    ∀ {K : List String}, K.Nodup → ∀ {k0 : String}, k0 ∈ K →
      (∀ k, k ≠ k0 → f k = g k) → ∀ {x y : String}, f k0 = some x →
      g k0 = some y →
      ∃ A B, K.filterMap f = A ++ x :: B ∧ K.filterMap g = A ++ y :: B := by
  intro K
  induction K with
  | nil => intro _ k0 hk; exact absurd hk (List.not_mem_nil k0)
  | cons a K ih =>
      intro hn k0 hk hoth x y hf hg
      by_cases hak : a = k0
      · subst hak
        have hnot : a ∉ K := (List.nodup_cons.mp hn).1
        have hcong : K.filterMap f = K.filterMap g :=
          List.filterMap_congr (fun k hkK =>
            hoth k (fun h => hnot (h ▸ hkK)))
        refine ⟨[], K.filterMap g, ?_, ?_⟩
        · rw [List.filterMap_cons_some hf, hcong, List.nil_append]
        · rw [List.filterMap_cons_some hg, List.nil_append]
      · have hk0K : k0 ∈ K :=
          (List.mem_cons.mp hk).resolve_left (fun h => hak h.symm)
        have hfa : f a = g a := hoth a hak
        obtain ⟨A, B, h1, h2⟩ := ih (List.nodup_cons.mp hn).2 hk0K hoth hf hg
        cases hfa' : f a with
        | none =>
            refine ⟨A, B, ?_, ?_⟩
            · rw [List.filterMap_cons_none hfa', h1]
            · rw [List.filterMap_cons_none (hfa ▸ hfa'), h2]
        | some v =>
            refine ⟨v :: A, B, ?_, ?_⟩
            · rw [List.filterMap_cons_some hfa', h1, List.cons_append]
            · rw [List.filterMap_cons_some (hfa ▸ hfa'), h2, List.cons_append]

theorem lookupKey_append_cons_self {P Q : List (String × Value)} {k0 : String}
    {v : Value} (h : k0 ∉ P.map Prod.fst) :
    lookupKey k0 (P ++ (k0, v) :: Q) = some v := by
  induction P with
  | nil => simp [lookupKey]
  | cons x P ih =>
      obtain ⟨kx, vx⟩ := x
      have hne : k0 ≠ kx := by
        simp only [List.map_cons, List.mem_cons] at h
        exact fun he => h (Or.inl he)
      have hmem : k0 ∉ P.map Prod.fst := by
        simp only [List.map_cons, List.mem_cons] at h
        exact fun he => h (Or.inr he)
      simp only [List.cons_append, lookupKey, if_neg hne]
      exact ih hmem

theorem lookupKey_append_cons_ne {P Q : List (String × Value)} {k0 k : String}
    (v w : Value) (h : k ≠ k0) :
    lookupKey k (P ++ (k0, v) :: Q) = lookupKey k (P ++ (k0, w) :: Q) := by
  induction P with
  | nil => simp [lookupKey, h]
  | cons x P ih =>
      obtain ⟨kx, vx⟩ := x
      simp only [List.cons_append, lookupKey]
      split
      · rfl
      · exact ih

theorem serializePayload_ne_of_field_change {P Q : List (String × Value)}
    {k0 s1 s2 : String}
    (hn : (List.map Prod.fst (P ++ (k0, Value.str s1) :: Q)).Nodup)
    (hs : s1 ≠ s2) :
    serializePayload (P ++ (k0, .str s1) :: Q)
      ≠ serializePayload (P ++ (k0, .str s2) :: Q) := by
  have hkeys : List.map Prod.fst (P ++ (k0, Value.str s2) :: Q)
      = List.map Prod.fst (P ++ (k0, Value.str s1) :: Q) := by
    simp
  unfold serializePayload
  rw [hkeys, serializeValue_obj, serializeValue_obj]
  intro he
  have hJ := string_append_left_cancel (string_append_right_cancel he)
  have hk0P : k0 ∉ List.map Prod.fst P := by
    simp only [List.map_append, List.map_cons, List.nodup_append] at hn
    exact fun hx => hn.2.2 hx (List.mem_cons_self k0 _)
  have hk0K : k0 ∈ sortKeys (List.map Prod.fst (P ++ (k0, Value.str s1) :: Q)) := by
    rw [(sortKeys_perm _).mem_iff]
    simp
  have hKnd : (sortKeys (List.map Prod.fst (P ++ (k0, Value.str s1) :: Q))).Nodup :=
    (sortKeys_perm _).nodup_iff.mpr hn
  have hoth : ∀ k : String, k ≠ k0 →
      Option.map (fun v => quote k ++ ":"
          ++ serializeValue
              (sortKeys (List.map Prod.fst (P ++ (k0, Value.str s1) :: Q))) v)
        (lookupKey k (P ++ (k0, Value.str s1) :: Q))
      = Option.map (fun v => quote k ++ ":"
          ++ serializeValue
              (sortKeys (List.map Prod.fst (P ++ (k0, Value.str s1) :: Q))) v)
        (lookupKey k (P ++ (k0, Value.str s2) :: Q)) := by
    intro k hk
    rw [lookupKey_append_cons_ne (Value.str s1) (Value.str s2) hk]
  have hfx : lookupKey k0 (P ++ (k0, Value.str s1) :: Q) = some (Value.str s1) :=
    lookupKey_append_cons_self hk0P
  have hgy : lookupKey k0 (P ++ (k0, Value.str s2) :: Q) = some (Value.str s2) :=
    lookupKey_append_cons_self hk0P
  obtain ⟨A, B, hA, hB⟩ :=
    @filterMap_single_diff
      (fun k => Option.map (fun v => quote k ++ ":"
          ++ serializeValue
              (sortKeys (List.map Prod.fst (P ++ (k0, Value.str s1) :: Q))) v)
        (lookupKey k (P ++ (k0, Value.str s1) :: Q)))
      (fun k => Option.map (fun v => quote k ++ ":"
          ++ serializeValue
              (sortKeys (List.map Prod.fst (P ++ (k0, Value.str s1) :: Q))) v)
        (lookupKey k (P ++ (k0, Value.str s2) :: Q)))
      (sortKeys (List.map Prod.fst (P ++ (k0, Value.str s1) :: Q)))
      hKnd k0 hk0K hoth
      (quote k0 ++ ":" ++ quote s1) (quote k0 ++ ":" ++ quote s2)
      (by simp only [hfx, Option.map_some']; rfl)
      (by simp only [hgy, Option.map_some']; rfl)
  rw [hA, hB] at hJ
  exact joinComma_ne A B
    (fun hq => hs (quote_inj (string_append_left_cancel hq))) hJ

/-! ### Positional list helpers -/

theorem getD_append_left {α : Type} (A B : List α) (i : Nat)
    (h : i < A.length) (d : α) : (A ++ B).getD i d = A.getD i d := by
  rw [List.getD_eq_getElem?_getD, List.getD_eq_getElem?_getD,
    List.getElem?_append_left h]

theorem getD_append_mid {α : Type} (A B : List α) (x : α) (d : α) :
    (A ++ x :: B).getD A.length d = x := by
  rw [List.getD_eq_getElem?_getD, List.getElem?_append_right (Nat.le_refl _)]
  simp

theorem getD_append_far {α : Type} (A B : List α) (x : α) (m : Nat) (d : α) :
    (A ++ x :: B).getD (A.length + 1 + m) d = B.getD m d := by
  rw [List.getD_eq_getElem?_getD, List.getD_eq_getElem?_getD,
    List.getElem?_append_right (by omega : A.length ≤ A.length + 1 + m)]
  have h : A.length + 1 + m - A.length = m + 1 := by omega
  rw [h]
  simp

theorem take_append_mid {α : Type} (A B : List α) (x : α) (m : Nat) :
    (A ++ x :: B).take (A.length + 1 + m) = A ++ x :: B.take m := by
  have h : A.length + 1 + m = A.length + (1 + m) := by omega
  rw [h, List.take_append, Nat.add_comm 1 m, List.take_succ_cons]

/-! ### Claim C5 -/

/-- Claim C5 as stated is falsified by nested fields: the replacer-array
semantics of `JSON.stringify(payload, sortedTopLevelKeys)` drops nested
fields whose names are not top-level keys, so changing the nested
"author" value does not change the serialization or the hash. -/
theorem claim5_counterexample :
    serializePayload [("documentId", .str "d"), ("content", .str "c"),
        ("metadata", .obj [("author", .str "Alice")])]
      = serializePayload [("documentId", .str "d"), ("content", .str "c"),
          ("metadata", .obj [("author", .str "Alicf")])]
  ∧ calculateExpectedHash idCrypto.hash
        [("documentId", .str "d"), ("content", .str "c"),
         ("metadata", .obj [("author", .str "Alice")])] []
      = calculateExpectedHash idCrypto.hash
          [("documentId", .str "d"), ("content", .str "c"),
           ("metadata", .obj [("author", .str "Alicf")])] []
  ∧ ("Alice" : String) ≠ "Alicf" :=
  ⟨rfl, rfl, by decide⟩

/-- Claim C5 (amended): expectedHash is invariant under reordering of the
payload's top-level fields (for duplicate-free field names); and, for an
injective (ideal collision-free) hash, it is sensitive to any change of
the value of a top-level string-valued field. Fields nested inside
object-valued fields are excluded: the replacer array drops nested fields
whose names are not top-level keys. -/
theorem claim5_amended :
    (∀ (h : String → String) (p1 p2 : Payload) (prior : List Signature),
      List.Perm (p1 : List (String × Value)) (p2 : List (String × Value)) →
      (List.map Prod.fst (p1 : List (String × Value))).Nodup →
      calculateExpectedHash h p1 prior = calculateExpectedHash h p2 prior)
  ∧ (∀ (h : String → String), Function.Injective h →
      ∀ (P Q : List (String × Value)) (k0 s1 s2 : String)
        (prior : List Signature), s1 ≠ s2 →
      (List.map Prod.fst (P ++ (k0, Value.str s1) :: Q)).Nodup →
      calculateExpectedHash h (P ++ (k0, .str s1) :: Q) prior
        ≠ calculateExpectedHash h (P ++ (k0, .str s2) :: Q) prior) := by
  constructor
  · intro h p1 p2 prior hperm hn
    rw [calculateExpectedHash_decomp, calculateExpectedHash_decomp,
      serializePayload_eq_of_perm hperm hn]
  · intro h hinj P Q k0 s1 s2 prior hs hn he
    rw [calculateExpectedHash_decomp, calculateExpectedHash_decomp] at he
    exact serializePayload_ne_of_field_change hn hs
      (string_append_right_cancel (hinj he))

/-- Closed witness for the amended claim C5. -/
theorem claim5_witness :
    calculateExpectedHash (fun s => s) [("b", .str "2"), ("a", .str "1")] []
      = calculateExpectedHash (fun s => s) [("a", .str "1"), ("b", .str "2")] []
  ∧ calculateExpectedHash (fun s => s) [("a", .str "1")] []
      ≠ calculateExpectedHash (fun s => s) [("a", .str "x")] [] := by
  constructor
  · exact claim5_amended.1 (fun s => s) _ _ []
      (List.Perm.swap ("a", Value.str "1") ("b", Value.str "2") [])
      (by decide)
  · exact claim5_amended.2 (fun s => s) (fun a b hab => hab) [] [] "a" "1" "x"
      [] (by decide) (by decide)

/-! ### Claim C4 -/

/-- Claim C4 as stated is falsified on a validly signed two-signature
document: mutating the payload does make index 0's hash check fail and
the overall result invalid, but the top-level error names the most recent
signer ("bob", the highest index, processed first in reverse traversal),
not the first signer ("alice" at index 0). -/
theorem claim4_counterexample :
    (traverse idCrypto (some docValid) regAB).isValid = true
  ∧ ((traverse idCrypto (some docMut) regAB).signatureResults.getD 0
        default).hashChainValid = false
  ∧ (traverse idCrypto (some docMut) regAB).isValid = false
  ∧ (traverse idCrypto (some docMut) regAB).error
      = some "Signature chain broken at signer: bob"
  ∧ some "Signature chain broken at signer: bob"
      ≠ some ("Signature chain broken at signer: " ++ "alice")
  ∧ ¬ List.IsInfix "alice".data "Signature chain broken at signer: bob".data :=
  ⟨rfl, rfl, rfl, rfl, by decide, by decide⟩

/-- Claim C4 (amended): with an injective (ideal) hash, for every signed
document whose payload is mutated after signing (every recorded hash was
computed over the original payload, every signer registered), every chain
position's hash check fails — in particular index 0's — the overall
result is invalid, and the top-level error names the most recent signer
(the one at the highest index). -/
theorem claim4_amended (c : Crypto) (hinj : Function.Injective c.hash)
    (doc' : SignedDocument) (registry : SignerRegistry)
    (p p' : Payload) (sigs : List Signature)
    (hs : doc'.signatures = some sigs) (hne : sigs ≠ [])
    (hp : doc'.payload = some p')
    (hchain : ∀ i, i < sigs.length →
      (sigs.getD i default).signedHash
        = calculateExpectedHash c.hash p (sigs.take i))
    (hreg : ∀ i, i < sigs.length →
      ∃ addr, registry (sigs.getD i default).signerId = some addr ∧ addr ≠ "")
    (hmut : serializePayload p' ≠ serializePayload p) :
    ((traverse c (some doc') registry).signatureResults.getD 0
        default).hashChainValid = false
  ∧ (traverse c (some doc') registry).isValid = false
  ∧ (traverse c (some doc') registry).error
      = some ("Signature chain broken at signer: "
                ++ (sigs.getD (sigs.length - 1) default).signerId) := by
  have hlen : 0 < sigs.length := List.length_pos.mpr hne
  have hmism : ∀ i, i < sigs.length →
      calculateExpectedHash c.hash p' (sigs.take i)
        ≠ (sigs.getD i default).signedHash := by
    intro i hi he
    rw [hchain i hi, calculateExpectedHash_decomp,
      calculateExpectedHash_decomp] at he
    exact hmut (string_append_right_cancel (hinj he))
  have hentry : ∀ i, i < sigs.length →
      sigResultAt c p' sigs registry i
        = { signerId := (sigs.getD i default).signerId, isValid := false,
            error := some ("Hash chain broken: expected "
                            ++ calculateExpectedHash c.hash p' (sigs.take i)
                            ++ ", got " ++ (sigs.getD i default).signedHash),
            hashChainValid := false, signatureValid := false } := by
    intro i hi
    obtain ⟨addr, hra, hane⟩ := hreg i hi
    rw [sigResultAt_eq]
    exact verifySignatureAtIndex_hashMismatch hra hane (hmism i hi)
  refine ⟨?_, ?_, ?_⟩
  · rw [traverse_signatureResults c doc' registry p' sigs hs hne hp,
      map_range_getD _ _ _ hlen, hentry 0 hlen]
  · rw [traverse_isValid c doc' registry p' sigs hs hne hp,
      List.all_eq_false]
    exact ⟨0, List.mem_range.mpr hlen, by rw [hentry 0 hlen]; simp⟩
  · rw [traverse_error c doc' registry p' sigs hs hne hp]
    unfold firstError
    have hj : sigs.length - 1 < sigs.length := by omega
    rw [find_reverse_range hj (by simp [hentry _ hj])
      (fun k h1 h2 => absurd h2 (by omega))]
    rfl

/-- Closed witness for the amended claim C4. -/
theorem claim4_witness :
    ((traverse idCrypto (some docMut) regAB).signatureResults.getD 0
        default).hashChainValid = false
  ∧ (traverse idCrypto (some docMut) regAB).isValid = false
  ∧ (traverse idCrypto (some docMut) regAB).error
      = some ("Signature chain broken at signer: " ++ "bob") := by
  have h := claim4_amended idCrypto (fun a b hab => hab) docMut regAB pOrig
    pMut [sigAlice, sigBob] rfl (by decide) rfl
    (by intro i hi
        simp only [List.length_cons, List.length_nil] at hi
        rcases i with _ | _ | i
        · rfl
        · rfl
        · omega)
    (by intro i hi
        simp only [List.length_cons, List.length_nil] at hi
        rcases i with _ | _ | i
        · exact ⟨"A", rfl, by decide⟩
        · exact ⟨"B", rfl, by decide⟩
        · omega)
    (by decide)
  exact ⟨h.1, h.2.1, h.2.2⟩

/-! ### Claim C6 -/

/-- Claim C6 as stated is falsified when the corrupted signature is not
the last one: on the validly signed two-signature fixture, corrupting the
FIRST signature's bytes (recorded hash unchanged) gives that entry
`hashChainValid = true, signatureValid = false` as claimed, but the later
entry's result changes too — its recomputed expected hash now covers the
corrupted bytes, so its hash-chain check fails although it was valid in
the uncorrupted document. -/
theorem claim6_counterexample :
    (traverse idCrypto (some docValid) regAB).isValid = true
  ∧ (traverse idCrypto (some docCorruptFirst) regAB).signatureResults.getD 0
        default
      = { signerId := "alice", isValid := false,
          error := some ("Invalid cryptographic signature for " ++ "alice"),
          hashChainValid := true, signatureValid := false }
  ∧ ((traverse idCrypto (some docValid) regAB).signatureResults.getD 1
        default).isValid = true
  ∧ ((traverse idCrypto (some docCorruptFirst) regAB).signatureResults.getD 1
        default).hashChainValid = false
  ∧ ((traverse idCrypto (some docCorruptFirst) regAB).signatureResults.getD 1
        default).isValid = false :=
  ⟨rfl, rfl, rfl, rfl, rfl⟩

/-- Claim C6 (amended): with an injective (ideal) hash, replacing one
signature record by a corrupted record that agrees on signerId, signedAt
and signedHash but has different cryptographic signature bytes (which no
longer verify) in a correctly chained document yields
`hashChainValid = true, signatureValid = false` for that entry; entries at
earlier indices are unchanged from the uncorrupted document; entries at
later indices fail the hash-chain check, since their recomputed expected
hash covers the corrupted bytes. -/
theorem claim6_amended (c : Crypto) (hinj : Function.Injective c.hash)
    (registry : SignerRegistry) (p : Payload) (A B : List Signature)
    (sj sj' : Signature)
    (hid : sj'.signerId = sj.signerId) (hat : sj'.signedAt = sj.signedAt)
    (hsh : sj'.signedHash = sj.signedHash)
    (hbytes : sj'.signature ≠ sj.signature)
    (addr : String) (hregj : registry sj.signerId = some addr)
    (haddr : addr ≠ "")
    (hchainj : calculateExpectedHash c.hash p A = sj.signedHash)
    (hfail : verifySignature c.recoverIdentity sj.signedHash sj'.signature addr
              = false)
    (hchainB : ∀ m, m < B.length → (B.getD m default).signedHash
        = calculateExpectedHash c.hash p (A ++ sj :: B.take m))
    (hregB : ∀ m, m < B.length → ∃ addrB,
        registry (B.getD m default).signerId = some addrB ∧ addrB ≠ "") :
    (∀ i, i < A.length →
      (traverse c (some (mkDoc p (A ++ sj' :: B)))
          registry).signatureResults.getD i default
        = (traverse c (some (mkDoc p (A ++ sj :: B)))
            registry).signatureResults.getD i default)
  ∧ (traverse c (some (mkDoc p (A ++ sj' :: B)))
        registry).signatureResults.getD A.length default
      = { signerId := sj.signerId, isValid := false,
          error := some ("Invalid cryptographic signature for " ++ sj.signerId),
          hashChainValid := true, signatureValid := false }
  ∧ (∀ m, m < B.length →
      ((traverse c (some (mkDoc p (A ++ sj' :: B)))
          registry).signatureResults.getD (A.length + 1 + m)
          default).hashChainValid = false
      ∧ ((traverse c (some (mkDoc p (A ++ sj' :: B)))
          registry).signatureResults.getD (A.length + 1 + m)
          default).isValid = false) := by
  have hne' : A ++ sj' :: B ≠ [] := by simp
  have hne : A ++ sj :: B ≠ [] := by simp
  have hres' := traverse_signatureResults c (mkDoc p (A ++ sj' :: B))
    registry p _ rfl hne' rfl
  have hres := traverse_signatureResults c (mkDoc p (A ++ sj :: B)) registry p _
    rfl hne rfl
  have hlenA : ∀ i, i < A.length → i < (A ++ sj' :: B).length := by
    intro i hi
    simp only [List.length_append, List.length_cons]
    omega
  have hlenA2 : ∀ i, i < A.length → i < (A ++ sj :: B).length := by
    intro i hi
    simp only [List.length_append, List.length_cons]
    omega
  refine ⟨?_, ?_, ?_⟩
  · intro i hi
    rw [hres', hres, map_range_getD _ _ _ (hlenA i hi),
      map_range_getD _ _ _ (hlenA2 i hi), sigResultAt_eq, sigResultAt_eq,
      getD_append_left _ _ _ hi, getD_append_left _ _ _ hi,
      List.take_append_of_le_length (Nat.le_of_lt hi),
      List.take_append_of_le_length (Nat.le_of_lt hi)]
  · have hj : A.length < (A ++ sj' :: B).length := by
      simp only [List.length_append, List.length_cons]
      omega
    rw [hres', map_range_getD _ _ _ hj, sigResultAt_eq, getD_append_mid,
      List.take_left]
    have hregj' : registry sj'.signerId = some addr := by rw [hid]; exact hregj
    have hchainj' : calculateExpectedHash c.hash p A = sj'.signedHash := by
      rw [hsh]; exact hchainj
    have hfail' : verifySignature c.recoverIdentity sj'.signedHash
        sj'.signature addr = false := by
      rw [hsh]; exact hfail
    rw [verifySignatureAtIndex_sigFail hregj' haddr hchainj' hfail', hid]
  · intro m hm
    have hi : A.length + 1 + m < (A ++ sj' :: B).length := by
      simp only [List.length_append, List.length_cons]
      omega
    obtain ⟨addrB, hrb, hbne⟩ := hregB m hm
    have hmism : calculateExpectedHash c.hash p (A ++ sj' :: B.take m)
        ≠ (B.getD m default).signedHash := by
      intro he
      rw [hchainB m hm, calculateExpectedHash_decomp,
        calculateExpectedHash_decomp, concatSer_append, concatSer_append,
        concatSer_cons, concatSer_cons] at he
      have h1 : serializeSignature sj' ++ concatSer (B.take m)
          = serializeSignature sj ++ concatSer (B.take m) :=
        string_append_left_cancel (string_append_left_cancel (hinj he))
      have h2 : serializeSignature sj' = serializeSignature sj :=
        string_append_right_cancel h1
      exact serializeSignature_ne_bytes hid hat hsh hbytes h2
    rw [hres', map_range_getD _ _ _ hi, sigResultAt_eq, getD_append_far,
      take_append_mid, verifySignatureAtIndex_hashMismatch hrb hbne hmism]
    exact ⟨rfl, rfl⟩

/-- Closed witness for the amended claim C6. -/
theorem claim6_witness :
    (traverse idCrypto (some (mkDoc pOrig (sigAliceCorrupt :: [sigBob])))
        regAB).signatureResults.getD 0 default
      = { signerId := "alice", isValid := false,
          error := some ("Invalid cryptographic signature for " ++ "alice"),
          hashChainValid := true, signatureValid := false }
  ∧ ((traverse idCrypto (some (mkDoc pOrig (sigAliceCorrupt :: [sigBob])))
        regAB).signatureResults.getD 1 default).hashChainValid = false := by
  have h := claim6_amended idCrypto (fun a b hab => hab) regAB pOrig []
    [sigBob] sigAlice sigAliceCorrupt rfl rfl rfl (by decide) "A" rfl
    (by decide) rfl rfl
    (by intro m hm
        simp only [List.length_cons, List.length_nil] at hm
        rcases m with _ | m
        · rfl
        · omega)
    (by intro m hm
        simp only [List.length_cons, List.length_nil] at hm
        rcases m with _ | m
        · exact ⟨"B", rfl, by decide⟩
        · omega)
  exact ⟨h.2.1, (h.2.2 0 (by decide)).1⟩

end SST
